import Mathlib

/-!
Verification development for the `ormox` driver-agnostic document-database
access layer (crates `ormox_core`: `core/query.rs`, `core/document.rs`,
`core/driver.rs`, `core/error.rs`, `client.rs`, `lib.rs`).

Modelling conventions of the shallow embedding:
* `serde_json::Value` and `bson::Bson` are identified on their common plain
  fragment (null, booleans, numbers, strings, arrays, documents) as the
  inductive type `Json`; numbers are modelled as `Int`.  On this fragment
  `serde_json::to_value : Bson -> Value` and `Bson::try_from : Value -> Bson`
  are mutually inverse identities, which is how they are embedded below.
* `bson::Document` is an ordered association list `List (String × Json)`
  whose `insert` replaces the value of an existing key in place and appends
  fresh keys at the end (`docInsert`).
* `HashMap<QueryKey, QueryValue>` (the payload of `Query`) is an association
  list with the same insert discipline; since the Rust `HashMap` is
  unordered, properties about `Query` equality are stated extensionally
  through `Query.lookup`.
* Fallible Rust code (`TryFrom`, `TryInto`, serde) returns `Option`/`Except`;
  a `panic!` is a dedicated constructor of an explicit result type.
* `async` methods of the client layer are embedded as pure functions of the
  driver's response; the driver itself is a record of response functions, and
  the calls a collection operation issues are returned as an explicit list.
-/

/-- Plain JSON/BSON value: the common fragment of `serde_json::Value` and
`bson::Bson` (documents as ordered association lists, numbers as `Int`). -/
inductive Json where
  | null
  | bool (bv : Bool)
  | num (nv : Int)
  | str (sv : String)
  | arr (elements : List Json)
  | doc (pairs : List (String × Json))

/-- Ordered wire document, the model of `bson::Document`. -/
abbrev Doc := List (String × Json)

mutual

/-- Boolean equality test on `Json`, used to derive decidable equality. -/
def Json.eqb : Json → Json → Bool
  | .null, .null => true
  | .bool a, .bool b => a = b
  | .num a, .num b => a = b
  | .str a, .str b => a = b
  | .arr xs, .arr ys => Json.eqbList xs ys
  | .doc d, .doc e => Json.eqbDoc d e
  | _, _ => false

/-- Pointwise `Json.eqb` on lists of values. -/
def Json.eqbList : List Json → List Json → Bool
  | [], [] => true
  | a :: as, b :: bs => Json.eqb a b && Json.eqbList as bs
  | _, _ => false

/-- Pointwise `Json.eqb` on documents. -/
def Json.eqbDoc : Doc → Doc → Bool
  | [], [] => true
  | (k, v) :: d, (k', v') :: e => k = k' && Json.eqb v v' && Json.eqbDoc d e
  | _, _ => false

end

theorem Json.eqb_eq : ∀ a b : Json, Json.eqb a b = true ↔ a = b := by
  apply Json.eqb.induct
    (fun a b => Json.eqb a b = true ↔ a = b)
    (fun d e => Json.eqbDoc d e = true ↔ d = e)
    (fun xs ys => Json.eqbList xs ys = true ↔ xs = ys)
  · simp [Json.eqb]
  · intro a b; simp [Json.eqb]
  · intro a b; simp [Json.eqb]
  · intro a b; simp [Json.eqb]
  · intro xs ys ih; simpa [Json.eqb] using ih
  · intro d e ih; simpa [Json.eqb] using ih
  · intro t x h1 h2 h3 h4 h5 h6
    cases t <;> cases x <;>
      first
        | exact (h1 rfl rfl).elim
        | exact (h2 _ _ rfl rfl).elim
        | exact (h3 _ _ rfl rfl).elim
        | exact (h4 _ _ rfl rfl).elim
        | exact (h5 _ _ rfl rfl).elim
        | exact (h6 _ _ rfl rfl).elim
        | simp [Json.eqb]
  · simp [Json.eqbList]
  · intro x xs y ys ih1 ih2; simp [Json.eqbList, ih1, ih2]
  · intro t x h1 h2
    cases t <;> cases x <;>
      first
        | exact (h1 rfl rfl).elim
        | exact (h2 _ _ _ _ rfl rfl).elim
        | simp [Json.eqbList]
  · simp [Json.eqbDoc]
  · intro k v d k' v' e ih1 ih2
    simp [Json.eqbDoc, ih1, ih2, and_assoc]
  · intro t x h1 h2
    match t, x with
    | [], [] => exact (h1 rfl rfl).elim
    | (k, v) :: d, (k', v') :: e => exact (h2 _ _ _ _ _ _ rfl rfl).elim
    | [], _ :: _ => simp [Json.eqbDoc]
    | _ :: _, [] => simp [Json.eqbDoc]

instance : DecidableEq Json := fun a b => decidable_of_iff _ (Json.eqb_eq a b)

/-- Lookup of a key in a wire document (`bson::Document::get`). -/
def docLookup (k : String) : Doc → Option Json
  | [] => none
  | (k', v) :: rest => if k' = k then some v else docLookup k rest

/-- Membership of a key in a wire document. -/
def keyMem (k : String) : Doc → Bool
  | [] => false
  | (k', _) :: rest => k' = k || keyMem k rest

/-- Insertion into a wire document (`bson::Document::insert`): the value of
an existing key is replaced in place, a fresh key is appended at the end. -/
def docInsert (d : Doc) (k : String) (v : Json) : Doc :=
  match d with
  | [] => [(k, v)]
  | (k', v') :: rest =>
    if k' = k then (k, v) :: rest else (k', v') :: docInsert rest k v

/-- Key of a `Query` entry, from `QueryKey` in `core/query.rs`: a literal
field name, a named operator, or one of the built-in operators.  The source
constructors `String`/`Operator` are lowercased because they would shadow the
`String` type inside the declaration. -/
inductive QueryKey where
  | string (s : String)
  | operator (s : String)
  | GreaterThan
  | LessThan
  | GreaterThanEqual
  | LessThanEqual
  | Equals
  | NotEquals
  | In
  | NotIn
  | And
  | Or
  | Not
  deriving DecidableEq

/-- Wire token of a `QueryKey`, from `impl ToString for QueryKey`. -/
def QueryKey.toStr : QueryKey → String
  | .string s => s
  | .operator o => o
  | .GreaterThan => "$gt"
  | .LessThan => "$lt"
  | .GreaterThanEqual => "$gte"
  | .LessThanEqual => "$lte"
  | .Equals => "$eq"
  | .NotEquals => "$ne"
  | .In => "$in"
  | .NotIn => "$nin"
  | .And => "$and"
  | .Or => "$or"
  | .Not => "$not"

/-- Value of a `Query` entry, from `QueryValue` in `core/query.rs`: a scalar
or structured literal, an ordered sequence of sub-queries, or a nested
query.  `Query` itself (a `HashMap<QueryKey, QueryValue>`) is embedded as
the association list of its entries. -/
inductive QueryValue where
  | value (v : Json)
  | casematch (qs : List (List (QueryKey × QueryValue)))
  | mapping (q : List (QueryKey × QueryValue))

/-- Backend-neutral filter, from `Query` in `core/query.rs` (the entry list
of the underlying `HashMap<QueryKey, QueryValue>`). -/
abbrev Query := List (QueryKey × QueryValue)

/-- Fresh empty query, `Query::new`. -/
def Query.new : Query := []

/-- Entry insertion, `Query::push` (backed by `HashMap::insert`): the value
under an existing key is replaced, a fresh key is added. -/
def Query.push : Query → QueryKey → QueryValue → Query
  | [], k, v => [(k, v)]
  | (k', v') :: rest, k, v =>
    if k' = k then (k, v) :: rest else (k', v') :: Query.push rest k v

/-- Extensional view of a query as the map it carries (Rust `HashMap`s are
compared by contents, not by any internal order). -/
def Query.lookup : Query → QueryKey → Option QueryValue
  | [], _ => none
  | (k', v) :: rest, k => if k' = k then some v else Query.lookup rest k

/-- Builder method `Query::field`. -/
def Query.field (q : Query) (key : String) (value : Json) : Query :=
  q.push (.string key) (.value value)

/-- Builder method `Query::subquery`. -/
def Query.subquery (q : Query) (key : String) (child : Query) : Query :=
  q.push (.string key) (.mapping child)

/-- Builder method `Query::operation`. -/
def Query.operation (q : Query) (op : String) (value : QueryValue) : Query :=
  q.push (.operator op) value

/-- Builder method `Query::greater_than`. -/
def Query.greater_than (q : Query) (n : Int) : Query :=
  q.push .GreaterThan (.value (.num n))

/-- Builder method `Query::greater_than_equal`. -/
def Query.greater_than_equal (q : Query) (n : Int) : Query :=
  q.push .GreaterThanEqual (.value (.num n))

/-- Builder method `Query::less_than`. -/
def Query.less_than (q : Query) (n : Int) : Query :=
  q.push .LessThan (.value (.num n))

/-- Builder method `Query::less_than_equal`. -/
def Query.less_than_equal (q : Query) (n : Int) : Query :=
  q.push .LessThanEqual (.value (.num n))

/-- Builder method `Query::equals`. -/
def Query.equals (q : Query) (v : Json) : Query :=
  q.push .Equals (.value v)

/-- Builder method `Query::not_equals`. -/
def Query.not_equals (q : Query) (v : Json) : Query :=
  q.push .NotEquals (.value v)

/-- Builder method `Query::in_array`. -/
def Query.in_array (q : Query) (vs : List Json) : Query :=
  q.push .In (.value (.arr vs))

/-- Builder method `Query::not_in_array`. -/
def Query.not_in_array (q : Query) (vs : List Json) : Query :=
  q.push .NotIn (.value (.arr vs))

/-- Builder method `Query::not`. -/
def Query.not (q : Query) (child : Query) : Query :=
  q.push .Not (.mapping child)

/-- Builder method `Query::and`. -/
def Query.and (q : Query) (cases : List Query) : Query :=
  q.push .And (.casematch cases)

/-- Builder method `Query::or`. -/
def Query.or (q : Query) (cases : List Query) : Query :=
  q.push .Or (.casematch cases)

/-- Builder finalizer `Query::build` (a clone of the accumulated state). -/
def Query.build (q : Query) : Query := q

/-- Helper `bson_value` of `core/query.rs` (`serde_json::to_value` on a
`Bson`): the identity on the modelled plain fragment. -/
def bson_value (b : Json) : Json := b

/-- Helper `bson_number` of `core/query.rs`: the wire value must be numeric,
anything else is a deserialization error. -/
def bson_number : Json → Option Int
  | .num n => some n
  | _ => none

/-- Helper `bson_value_array` of `core/query.rs`: the wire value must be an
array, anything else is a deserialization error. -/
def bson_value_array : Json → Option (List Json)
  | .arr xs => some xs
  | _ => none

/-- Test for the operator sigil, `key.starts_with("$")` in the source.
Stated on the character data so that it evaluates inside the kernel. -/
def startsWithDollar (s : String) : Bool :=
  match s.data with
  | [] => false
  | c :: _ => c = '$'

mutual

/-- Helper `bson_query` of `core/query.rs`: the wire value must be a document
and is parsed recursively as a `Query`. -/
def bson_query : Json → Option Query
  | .doc d => Query.tryFromEntries Query.new d
  | _ => none

/-- Helper `bson_query_array` of `core/query.rs`: the wire value must be an
array of documents, each parsed independently as a `Query`. -/
def bson_query_array : Json → Option (List Query)
  | .arr xs => bson_query_list xs
  | _ => none

/-- Loop body of `bson_query_array`: parses each array element, failing on
the first element that is not a parsable document. -/
def bson_query_list : List Json → Option (List Query)
  | [] => some []
  | x :: xs =>
    match bson_query x, bson_query_list xs with
    | some q, some qs => some (q :: qs)
    | _, _ => none

/-- Loop body of `impl TryFrom<bson::Document> for Query`, processing the
entries of the wire document in order and pushing the parsed constraint of
each onto the accumulated query.  A key starting with the operator sigil is
dispatched against the canonical operator tokens; an unrecognized operator
key is accepted generically, classifying its value by shape (document,
array of documents, anything else); a key without the sigil is a field name
whose document value becomes a field subquery and whose other values become
a direct equality constraint. -/
def Query.tryFromEntries (acc : Query) : Doc → Option Query
  | [] => some acc
  | (key, value) :: rest =>
    if startsWithDollar key then
      if key = "$gt" then
        match bson_number value with
        | some n => Query.tryFromEntries (acc.greater_than n) rest
        | none => none
      else if key = "$lt" then
        match bson_number value with
        | some n => Query.tryFromEntries (acc.less_than n) rest
        | none => none
      else if key = "$gte" then
        match bson_number value with
        | some n => Query.tryFromEntries (acc.greater_than_equal n) rest
        | none => none
      else if key = "$lte" then
        match bson_number value with
        | some n => Query.tryFromEntries (acc.less_than_equal n) rest
        | none => none
      else if key = "$eq" then
        Query.tryFromEntries (acc.equals (bson_value value)) rest
      else if key = "$ne" then
        Query.tryFromEntries (acc.not_equals (bson_value value)) rest
      else if key = "$in" then
        match bson_value_array value with
        | some vs => Query.tryFromEntries (acc.in_array vs) rest
        | none => none
      else if key = "$nin" then
        match bson_value_array value with
        | some vs => Query.tryFromEntries (acc.not_in_array vs) rest
        | none => none
      else if key = "$not" then
        match bson_query value with
        | some sub => Query.tryFromEntries (acc.not sub) rest
        | none => none
      else if key = "$and" then
        match bson_query_array value with
        | some qs => Query.tryFromEntries (acc.and qs) rest
        | none => none
      else if key = "$or" then
        match bson_query_array value with
        | some qs => Query.tryFromEntries (acc.or qs) rest
        | none => none
      else
        match value with
        | .doc subdoc =>
          match Query.tryFromEntries Query.new subdoc with
          | some sq =>
            Query.tryFromEntries (acc.operation key (.mapping sq)) rest
          | none => none
        | other =>
          match bson_query_array other with
          | some qs =>
            Query.tryFromEntries (acc.operation key (.casematch qs)) rest
          | none =>
            Query.tryFromEntries (acc.operation key (.value (bson_value other))) rest
    else
      match value with
      | .doc subdoc =>
        match Query.tryFromEntries Query.new subdoc with
        | some sq => Query.tryFromEntries (acc.subquery key sq) rest
        | none => none
      | other => Query.tryFromEntries (acc.field key (bson_value other)) rest

end

/-- Parsing of a wire document into a `Query`,
`impl TryFrom<bson::Document> for Query` (`none` is the error case). -/
def Query.tryFrom (d : Doc) : Option Query :=
  Query.tryFromEntries Query.new d

mutual

/-- Loop body of `impl TryInto<bson::Document> for Query`: each entry is
inserted into the result document under its key's wire token; on the
modelled fragment the conversion cannot fail. -/
def Query.tryIntoEntries (acc : Doc) : Query → Doc
  | [] => acc
  | (k, v) :: rest =>
    Query.tryIntoEntries (docInsert acc k.toStr (QueryValue.wire v)) rest

/-- Wire form of a `QueryValue`: a literal stays itself, a casematch becomes
the array of the nested queries' wire documents, a mapping becomes the
nested query's wire document. -/
def QueryValue.wire : QueryValue → Json
  | .value v => v
  | .casematch qs => .arr (QueryValue.wireCases qs)
  | .mapping q => .doc (Query.tryIntoEntries [] q)

/-- Wire forms of the sub-queries of a casematch, in order. -/
def QueryValue.wireCases : List Query → List Json
  | [] => []
  | q :: rest => .doc (Query.tryIntoEntries [] q) :: QueryValue.wireCases rest

end

/-- Serialization of a `Query` to the wire format,
`impl TryInto<bson::Document> for Query`. -/
def Query.tryInto (q : Query) : Doc :=
  Query.tryIntoEntries [] q

mutual

/-- Well-formed JSON value: every document nested anywhere inside it has
pairwise-distinct keys.  This invariant is enforced in Rust by
`serde_json::Value::Object` being a map and `bson::Document::insert`
replacing existing keys; the association-list model states it explicitly. -/
def Json.wf : Json → Bool
  | .null => true
  | .bool _ => true
  | .num _ => true
  | .str _ => true
  | .arr xs => Json.wfList xs
  | .doc d => Json.wfDoc d

/-- All values of a list are well-formed. -/
def Json.wfList : List Json → Bool
  | [] => true
  | x :: xs => Json.wf x && Json.wfList xs

/-- Well-formed wire document: distinct keys, well-formed values. -/
def Json.wfDoc : Doc → Bool
  | [] => true
  | (k, v) :: rest => !(keyMem k rest) && Json.wf v && Json.wfDoc rest

end

mutual

/-- Well-formed query: every `Json` literal stored in it is well-formed. -/
def Query.wfQ : Query → Bool
  | [] => true
  | (_, v) :: rest => QueryValue.wfV v && Query.wfQ rest

/-- Well-formedness of a query value. -/
def QueryValue.wfV : QueryValue → Bool
  | .value j => Json.wf j
  | .mapping q => Query.wfQ q
  | .casematch qs => QueryValue.wfQs qs

/-- Well-formedness of the sub-queries of a casematch. -/
def QueryValue.wfQs : List Query → Bool
  | [] => true
  | q :: rest => Query.wfQ q && QueryValue.wfQs rest

end

/-- Restricted field-first builder, `SimpleQuery` in `core/query.rs`: a
wrapper around a `Query`. -/
structure SimpleQuery where
  q : Query

/-- Builder entry point `SimpleQuery::new`. -/
def SimpleQuery.new : SimpleQuery := ⟨Query.new⟩

/-- Builder method `SimpleQuery::equals` (delegates to `Query::field`). -/
def SimpleQuery.equals (s : SimpleQuery) (key : String) (value : Json) : SimpleQuery :=
  ⟨s.q.field key value⟩

/-- Builder method `SimpleQuery::not_equals`. -/
def SimpleQuery.not_equals (s : SimpleQuery) (key : String) (value : Json) : SimpleQuery :=
  ⟨s.q.subquery key ((Query.new.not_equals value).build)⟩

/-- Builder method `SimpleQuery::less_than`. -/
def SimpleQuery.less_than (s : SimpleQuery) (key : String) (n : Int) : SimpleQuery :=
  ⟨s.q.subquery key ((Query.new.less_than n).build)⟩

/-- Builder method `SimpleQuery::less_than_equal`. -/
def SimpleQuery.less_than_equal (s : SimpleQuery) (key : String) (n : Int) : SimpleQuery :=
  ⟨s.q.subquery key ((Query.new.less_than_equal n).build)⟩

/-- Builder method `SimpleQuery::greater_than`. -/
def SimpleQuery.greater_than (s : SimpleQuery) (key : String) (n : Int) : SimpleQuery :=
  ⟨s.q.subquery key ((Query.new.greater_than n).build)⟩

/-- Builder method `SimpleQuery::greater_than_equal`. -/
def SimpleQuery.greater_than_equal (s : SimpleQuery) (key : String) (n : Int) : SimpleQuery :=
  ⟨s.q.subquery key ((Query.new.greater_than_equal n).build)⟩

/-- Builder method `SimpleQuery::in_array`. -/
def SimpleQuery.in_array (s : SimpleQuery) (key : String) (vs : List Json) : SimpleQuery :=
  ⟨s.q.subquery key ((Query.new.in_array vs).build)⟩

/-- Builder method `SimpleQuery::not_in_array`. -/
def SimpleQuery.not_in_array (s : SimpleQuery) (key : String) (vs : List Json) : SimpleQuery :=
  ⟨s.q.subquery key ((Query.new.not_in_array vs).build)⟩

/-- Builder method `SimpleQuery::not`. -/
def SimpleQuery.not (s : SimpleQuery) (key : String) (expr : Query) : SimpleQuery :=
  ⟨s.q.subquery key ((Query.new.not expr).build)⟩

/-- Builder finalizer `SimpleQuery::build`. -/
def SimpleQuery.build (s : SimpleQuery) : Query := s.q.build

/-- Conversion `impl From<Query> for SimpleQuery` (wraps). -/
def SimpleQuery.fromQuery (q : Query) : SimpleQuery := ⟨q⟩

/-- Conversion `impl From<SimpleQuery> for Query` (unwraps). -/
def Query.fromSimple (s : SimpleQuery) : Query := s.q

/-- Removal of consecutive duplicates, the model of `Vec::dedup`. -/
def dedupAdjacent : List String → List String
  | [] => []
  | [a] => [a]
  | a :: b :: rest =>
    if a = b then dedupAdjacent (b :: rest) else a :: dedupAdjacent (b :: rest)

/-- Index declaration, from `Index` in `core/document.rs`. -/
structure Index where
  fields : List String
  name : Option String
  unique : Bool

/-- Constructor `Index::new`: a single-field index. -/
def Index.new (field : String) : Index :=
  { fields := [field], name := none, unique := false }

/-- Constructor `Index::new_compound`: the input field list is sorted
(`Vec::sort`, embedded as a stable insertion sort) and consecutive
duplicates are removed (`Vec::dedup`). -/
def Index.new_compound (fields : List String) : Index :=
  { fields := dedupAdjacent (List.insertionSort (· ≤ ·) fields)
    name := none
    unique := false }

/-- Builder method `Index::named`. -/
def Index.named (i : Index) (name : String) : Index :=
  { i with name := some name }

/-- Builder method `Index::unnamed`. -/
def Index.unnamed (i : Index) : Index :=
  { i with name := none }

/-- Builder method `Index::unique` (named `setUnique` here because `unique`
is already the field projection). -/
def Index.setUnique (i : Index) (unique : Bool) : Index :=
  { i with unique := unique }

/-- Builder method `Index::field`: appends the field only when it is not
already present, then re-sorts. -/
def Index.field (i : Index) (field : String) : Index :=
  if field ∈ i.fields then i
  else { i with fields := List.insertionSort (· ≤ ·) (i.fields ++ [field]) }

/-- Builder finalizer `Index::build` (a clone). -/
def Index.build (i : Index) : Index := i

/-- Error type of the core, from `OrmoxError` in `core/error.rs`. -/
inductive OrmoxError where
  | CollectionRetrieval (name reason : String)
  | Serialization (error : String)
  | Deserialization (error : String)
  | Insert (error : String)
  | Compatibility (error : String)
  | NotFound (query : String)
  | Id (provided : String)
  | Uninitialized
  | Unimplemented
  | Driver (driver_name error : String)
  deriving DecidableEq

/-- Operation cardinality, from `OperationCount` in `core/driver.rs`. -/
inductive OperationCount where
  | One
  | Many
  deriving DecidableEq

/-- Sort direction, from `Sorting` in `core/driver.rs`. -/
inductive Sorting where
  | Ascending (key : String)
  | Descending (key : String)
  deriving DecidableEq

/-- Read options, from `Find` in `core/driver.rs`. -/
structure Find where
  operation : OperationCount
  offset : Option Nat
  limit : Option Nat
  sort : Option Sorting
  deriving DecidableEq

/-- Constructor `Find::many`. -/
def Find.many : Find :=
  { operation := .Many, offset := none, limit := none, sort := none }

/-- Constructor `Find::one`. -/
def Find.one : Find :=
  { operation := .One, offset := none, limit := none, sort := none }

mutual

/-- Best-effort rendering of a wire value, the model of the `Display`
instance used by `find_one` for `NotFound` errors. -/
def Json.render : Json → String
  | .null => "null"
  | .bool b => if b then "true" else "false"
  | .num n => toString n
  | .str s => "\"" ++ s ++ "\""
  | .arr xs => "[" ++ Json.renderList xs ++ "]"
  | .doc d => "\x7b " ++ Json.renderDoc d ++ " \x7d"

/-- Comma-separated rendering of array elements. -/
def Json.renderList : List Json → String
  | [] => ""
  | [x] => Json.render x
  | x :: rest => Json.render x ++ ", " ++ Json.renderList rest

/-- Comma-separated rendering of document entries. -/
def Json.renderDoc : Doc → String
  | [] => ""
  | [(k, v)] => "\"" ++ k ++ "\": " ++ Json.render v
  | (k, v) :: rest => "\"" ++ k ++ "\": " ++ Json.render v ++ ", " ++ Json.renderDoc rest

end

/-- Rendering of a wire document, `bson::Document::to_string`. -/
def docRender (d : Doc) : String := "\x7b " ++ Json.renderDoc d ++ " \x7d"

/-- String rendering of the attempted query used by `Collection::find_one`
for its `NotFound` error.  The source falls back to the literal
`"Unparseable query"` when `TryInto<bson::Document>` fails; on the modelled
fragment the conversion is total, so the fallback branch is unreachable. -/
def renderQuery (q : Query) : String := docRender (Query.tryInto q)

/-- Backend responses for the driver contract of `core/driver.rs` (§4.2): a
concrete backend is a black box, so each operation the collection layer
delegates to is a response function.  Generated identifiers (`Uuid`) are
modelled as strings. -/
structure DriverModel where
  findResult : String → Query → Find → Except OrmoxError (List Doc)
  insertResult : String → List Doc → Except OrmoxError (List String)
  updateResult : String → Query → Doc → OperationCount → Bool → Except OrmoxError Unit

/-- Driver call issued by a collection operation, recorded explicitly so
that statements about which calls are (not) made are expressible. -/
inductive DriverCall where
  | insert (collection : String) (documents : List Doc)
  | update (collection : String) (query : Query) (upd : Doc)
      (count : OperationCount) (upsert : Bool)

/-- Typed collection handle, from `Collection<T>` in `client.rs`, together
with the capabilities of its document type `T` (the `Document` trait of
`core/document.rs`): collection name, serde conversions, identifier field
and identifier rendering. -/
structure CollectionModel (T : Type) where
  driver : DriverModel
  name : String
  parse : Doc → Except String T
  serialize : T → Except String Doc
  idField : String
  idString : T → String

/-- Wrapped parsing `Document::parse`: a serde failure becomes a
`Deserialization` error (attaching the collection is a no-op here). -/
def CollectionModel.parseDocument {T : Type} (C : CollectionModel T) (d : Doc) :
    Except OrmoxError T :=
  match C.parse d with
  | .ok t => .ok t
  | .error e => .error (.Deserialization e)

/-- Result loop of `Collection::find`: parses each raw document in order,
propagating the first failure. -/
def CollectionModel.parseResults {T : Type} (C : CollectionModel T) :
    List Doc → Except OrmoxError (List T)
  | [] => .ok []
  | r :: rest =>
    match C.parseDocument r with
    | .ok t =>
      match C.parseResults rest with
      | .ok ts => .ok (t :: ts)
      | .error e => .error e
    | .error e => .error e

/-- Read operation `Collection::find`: delegates to the driver with the
given options (default `Find::many`), then parses every raw result. -/
def CollectionModel.find {T : Type} (C : CollectionModel T) (q : Query)
    (options : Option Find) : Except OrmoxError (List T) :=
  match C.driver.findResult C.name q (options.getD Find.many) with
  | .ok raw => C.parseResults raw
  | .error e => .error e

/-- Single-result lookup `Collection::find_one`: `find` with cardinality
forced to `One`, taking element 0 of the parsed results; an empty result
fails with `NotFound` carrying the rendered query. -/
def CollectionModel.find_one {T : Type} (C : CollectionModel T) (q : Query) :
    Except OrmoxError T :=
  match C.find q (some Find.one) with
  | .ok results =>
    match results.head? with
    | some r => .ok r
    | none => .error (.NotFound (renderQuery q))
  | .error e => .error e

/-- Serialization loop of `Collection::insert`: each document is serialized
in order; the first serde failure aborts with a `Serialization` error. -/
def CollectionModel.serializeAll {T : Type} (C : CollectionModel T) :
    List T → Except OrmoxError (List Doc)
  | [] => .ok []
  | d :: rest =>
    match C.serialize d with
    | .error e => .error (.Serialization e)
    | .ok sd =>
      match C.serializeAll rest with
      | .ok tail => .ok (sd :: tail)
      | .error e => .error e

/-- Batch insert `Collection::insert`: serializes the whole batch first and
only then issues the single driver insert call; the returned list is the
sequence of driver calls actually made. -/
def CollectionModel.insert {T : Type} (C : CollectionModel T) (docs : List T) :
    Except OrmoxError (List String) × List DriverCall :=
  match C.serializeAll docs with
  | .error e => (.error e, [])
  | .ok ser => (C.driver.insertResult C.name ser, [DriverCall.insert C.name ser])

/-- Update operation `Collection::update`: serializes the update value (a
serde failure is wrapped as `Deserialization`, as in the source), then
delegates to the driver with the given cardinality and upsert flag. -/
def CollectionModel.update {T : Type} (C : CollectionModel T) (q : Query) (upd : T)
    (operations : OperationCount) (upsert : Bool) :
    Except OrmoxError Unit × List DriverCall :=
  match C.serialize upd with
  | .error e => (.error (.Deserialization e), [])
  | .ok ud =>
    (C.driver.updateResult C.name q ud operations upsert,
      [DriverCall.update C.name q ud operations upsert])

/-- Identity query built by `Collection::save`: a single field-equality
constraint on the document type's identifier field against the string form
of the document's identifier. -/
def CollectionModel.saveQuery {T : Type} (C : CollectionModel T) (document : T) : Query :=
  (Query.new.field C.idField (.str (C.idString document))).build

/-- Convenience `Collection::save`: `update` with the identity query,
cardinality `One` and upsert forced to `true`. -/
def CollectionModel.save {T : Type} (C : CollectionModel T) (document : T) :
    Except OrmoxError Unit × List DriverCall :=
  C.update (C.saveQuery document) document .One true

/-- Outcome of a call that may `panic!` instead of returning. -/
inductive PanicOr (α : Type) where
  | panicked (msg : String)
  | value (a : α)

/-- Process-wide client, from `Client` in `client.rs` (an `Arc`-shared
driver handle). -/
structure Client where
  driver : DriverModel

/-- Global setter `Client::create_global` acting on the `ORMOX` cell of
`lib.rs` (a `OnceLock`, embedded as `Option Client` state): setting an empty
cell stores and returns the client; a second call panics with
`"Global instance already set!"` and leaves the cell unchanged. -/
def Client.create_global (st : Option Client) (c : Client) :
    Option Client × PanicOr Client :=
  match st with
  | none => (some c, .value c)
  | some c0 => (some c0, .panicked "Global instance already set!")

/-- Global accessor `Client::global` (`ORMOX.get().cloned()`). -/
def Client.global (st : Option Client) : Option Client := st

mutual

/-- Modelled from the spec: the wire-filter matching semantics a storage
backend applies when selecting documents (spec §4.1 operator meanings and
§8 fixtures); the concrete backends implementing the driver contract are
out of scope of the core sources, so document selection is embedded from
the spec's description.  A query matches a document when all its
constraints hold. -/
def specMatches : Query → Doc → Bool
  | [], _ => true
  | e :: rest, d => specMatchesEntry e d && specMatches rest d

/-- Modelled from the spec: one top-level constraint of a filter: a field
key with a literal is a direct equality on that field, a field key with a
nested query applies each nested operator to that field's value, `$and`,
`$or` and `$not` combine sub-filters; constraints with no described
semantics match nothing. -/
def specMatchesEntry : (QueryKey × QueryValue) → Doc → Bool
  | (.string f, .value v), d => docLookup f d == some v
  | (.string f, .mapping sub), d => specFieldOps sub (docLookup f d)
  | (.And, .casematch qs), d => specMatchesAll qs d
  | (.Or, .casematch qs), d => specMatchesAny qs d
  | (.Not, .mapping sub), d => !(specMatches sub d)
  | _, _ => false

/-- Modelled from the spec: all operator constraints of a field subquery
hold of the field's value. -/
def specFieldOps : Query → Option Json → Bool
  | [], _ => true
  | (k, v) :: rest, fv => specFieldOp k v fv && specFieldOps rest fv

/-- Modelled from the spec: a single comparison operator applied to a
field's value (`$gt`/`$lt`/`$gte`/`$lte` compare numerically, `$eq`/`$ne`
compare values, `$in`/`$nin` test membership, `$not` negates). -/
def specFieldOp : QueryKey → QueryValue → Option Json → Bool
  | .Equals, .value v, fv => fv == some v
  | .NotEquals, .value v, fv => !(fv == some v)
  | .GreaterThan, .value (.num n), some (.num m) => decide (n < m)
  | .LessThan, .value (.num n), some (.num m) => decide (m < n)
  | .GreaterThanEqual, .value (.num n), some (.num m) => decide (n ≤ m)
  | .LessThanEqual, .value (.num n), some (.num m) => decide (m ≤ n)
  | .In, .value (.arr vs), some x => vs.contains x
  | .NotIn, .value (.arr vs), some x => !(vs.contains x)
  | .Not, .mapping sub, fv => !(specFieldOps sub fv)
  | _, _, _ => false

/-- Modelled from the spec: every sub-filter of an `$and` matches. -/
def specMatchesAll : List Query → Doc → Bool
  | [], _ => true
  | q :: rest, d => specMatches q d && specMatchesAll rest d

/-- Modelled from the spec: some sub-filter of an `$or` matches. -/
def specMatchesAny : List Query → Doc → Bool
  | [], _ => false
  | q :: rest, d => specMatches q d || specMatchesAny rest d

end

/-- Modelled from the spec: under cardinality `One` an update replaces the
stored fields of the first matching document. -/
def replaceFirst : List Doc → Query → Doc → List Doc
  | [], _, _ => []
  | d :: rest, q, upd =>
    if specMatches q d then upd :: rest else d :: replaceFirst rest q upd

/-- Modelled from the spec: the effect of the driver contract's
`update`-with-upsert operation (§4.2) on a backend's stored collection:
cardinality `One` applies the update document to at most one match (the
first in store order), `Many` to every match; when nothing matches and
`upsert` is set, the update document is created as a new document. -/
def storeUpdate (store : List Doc) (q : Query) (upd : Doc)
    (count : OperationCount) (upsert : Bool) : List Doc :=
  if store.any (fun d => specMatches q d) then
    match count with
    | .One => replaceFirst store q upd
    | .Many => store.map (fun d => if specMatches q d then upd else d)
  else if upsert then store ++ [upd] else store

/-- Driver stub whose every response is an empty success, used to
instantiate theorems with hypotheses at concrete inputs. -/
def emptyDriver : DriverModel :=
  { findResult := fun _ _ _ => .ok []
    insertResult := fun _ _ => .ok []
    updateResult := fun _ _ _ _ _ => .ok () }

/-- Driver stub returning the same two raw documents from every find. -/
def twoDocDriver : DriverModel :=
  { emptyDriver with findResult := fun _ _ _ => .ok [[], [("x", Json.null)]] }

/-- Collection of unit documents over `emptyDriver`. -/
def unitCollection : CollectionModel Unit :=
  { driver := emptyDriver
    name := "units"
    parse := fun _ => .ok ()
    serialize := fun _ => .ok [("id", Json.str "u")]
    idField := "id"
    idString := fun _ => "u" }

/-- Collection over `twoDocDriver` whose parser accepts only the empty raw
document, so the second raw result fails to deserialize. -/
def strictCollection : CollectionModel Unit :=
  { unitCollection with
    driver := twoDocDriver
    parse := fun d => match d with | [] => .ok () | _ => .error "bad" }

/-- Collection over `twoDocDriver` that parses every raw document. -/
def lenientCollection : CollectionModel Unit :=
  { unitCollection with driver := twoDocDriver }

/-- Collection whose serializer rejects every document. -/
def failingSerializeCollection : CollectionModel Unit :=
  { unitCollection with serialize := fun _ => .error "nope" }

/-- Sequence of builder calls on a query, each recorded as the key/value
pair it pushes (every `Query` builder method is one `push`). -/
def applyPushes (q : Query) (l : List (QueryKey × QueryValue)) : Query :=
  l.foldl (fun acc kv => acc.push kv.1 kv.2) q

/-- Wire document entry produced by one query entry: the key's wire token
paired with the value's wire form. -/
def entryWire (e : QueryKey × QueryValue) : String × Json :=
  (e.1.toStr, QueryValue.wire e.2)

/-- C8: calling the global-Client setter a second time in a process fails
fatally with a panic (not a returned result), and after the failed second
call the instance stored by the first call remains retrievable through the
global accessor. -/
theorem create_global_twice_panics (c0 c1 : Client) :
    Client.create_global none c0 = (some c0, .value c0)
    ∧ (Client.create_global (Client.create_global none c0).1 c1).2
        = PanicOr.panicked "Global instance already set!"
    ∧ Client.global (Client.create_global (Client.create_global none c0).1 c1).1
        = some c0 :=
  ⟨rfl, rfl, rfl⟩

/-- C4: when the driver's find for the attempted query returns zero
documents, `Collection::find_one` fails with a `NotFound` error carrying
the best-effort string rendering of the query; it neither returns a default
value nor panics (the embedding has no panic outcome, and the result is
exactly this error). -/
theorem find_one_empty_is_not_found {T : Type} (C : CollectionModel T) (q : Query)
    (h : C.driver.findResult C.name q Find.one = .ok []) :
    C.find_one q = .error (.NotFound (renderQuery q)) := by
  simp [CollectionModel.find_one, CollectionModel.find, h, CollectionModel.parseResults]

/-- Witness for C4: the empty driver returns zero documents for the empty
query, and `find_one` indeed fails with the rendered `NotFound`. -/
theorem find_one_empty_is_not_found_witness :
    unitCollection.find_one Query.new = .error (.NotFound (renderQuery Query.new)) :=
  find_one_empty_is_not_found unitCollection Query.new rfl

/-- Counterexample for C9: the driver returns a non-empty sequence (two raw
documents) but `find_one` does not succeed with the parsed first element —
parsing of the second, "ignored" element fails and the whole call errors
with that `Deserialization` failure. -/
theorem find_one_errors_on_unparsable_second :
    strictCollection.find_one Query.new = .error (.Deserialization "bad") := rfl

/-- C9 (amended): whenever the driver's find returns a sequence whose
elements all parse, with a first parsed element `t`, `find_one` succeeds
with `t`, ignoring all later elements; it never errors merely because more
than one document was returned. -/
theorem find_one_first_of_parsed {T : Type} (C : CollectionModel T) (q : Query)
    (ds : List Doc) (t : T) (ts : List T)
    (hd : C.driver.findResult C.name q Find.one = .ok ds)
    (hp : C.parseResults ds = .ok (t :: ts)) :
    C.find_one q = .ok t := by
  simp [CollectionModel.find_one, CollectionModel.find, hd, hp]

/-- Witness for the amended C9: a driver returning two parsable documents
makes `find_one` succeed with the first parsed element. -/
theorem find_one_first_of_parsed_witness :
    lenientCollection.find_one Query.new = .ok () :=
  find_one_first_of_parsed lenientCollection Query.new [[], [("x", Json.null)]]
    () [()] rfl rfl

/-- Failure of any single serialization makes the whole batch loop of
`Collection::insert` fail with a `Serialization` error. -/
theorem serializeAll_error_of_mem {T : Type} (C : CollectionModel T)
    (docs : List T) (d : T) (msg : String)
    (hmem : d ∈ docs) (hser : C.serialize d = .error msg) :
    ∃ e, C.serializeAll docs = .error (OrmoxError.Serialization e) := by
  induction docs with
  | nil => cases hmem
  | cons x rest ih =>
    rcases List.mem_cons.1 hmem with h | h
    · subst h
      cases hx : C.serialize d with
      | error e => exact ⟨e, by simp [CollectionModel.serializeAll, hx]⟩
      | ok sd => rw [hser] at hx; cases hx
    · cases hx : C.serialize x with
      | error e => exact ⟨e, by simp [CollectionModel.serializeAll, hx]⟩
      | ok sd =>
        obtain ⟨e, he⟩ := ih h
        exact ⟨e, by simp [CollectionModel.serializeAll, hx, he]⟩

/-- C5: if serializing any document of the batch fails, `Collection::insert`
fails with a `Serialization` error and issues no driver call at all — no
document of the batch is submitted. -/
theorem insert_fail_fast {T : Type} (C : CollectionModel T) (docs : List T)
    (h : ∃ d ∈ docs, ∃ msg, C.serialize d = .error msg) :
    (∃ e, (C.insert docs).1 = .error (OrmoxError.Serialization e))
    ∧ (C.insert docs).2 = [] := by
  obtain ⟨d, hmem, msg, hser⟩ := h
  obtain ⟨e, he⟩ := serializeAll_error_of_mem C docs d msg hmem hser
  exact ⟨⟨e, by simp [CollectionModel.insert, he]⟩, by simp [CollectionModel.insert, he]⟩

/-- Witness for C5: a batch containing a document that fails to serialize
aborts with a `Serialization` error and an empty driver-call list. -/
theorem insert_fail_fast_witness :
    (∃ e, (failingSerializeCollection.insert [()]).1
      = .error (OrmoxError.Serialization e))
    ∧ (failingSerializeCollection.insert [()]).2 = [] :=
  insert_fail_fast failingSerializeCollection [()]
    ⟨(), List.mem_singleton.mpr rfl, "nope", rfl⟩

/-- Counterexample for C2: `SimpleQuery::equals` does not record the
comparison as a nested single-operator query under the field key — the
entry it records is a direct field/value constraint (a `value`, not a
`mapping`). -/
theorem simple_query_equals_is_direct :
    (SimpleQuery.new.equals "a" (Json.num 1)).q
      = [(QueryKey.string "a", QueryValue.value (Json.num 1))] := rfl

/-- C2 (amended): every `SimpleQuery` builder method except `equals`
records the per-field comparison as a nested single-operator query under
that field's key; `equals` records a direct field-equality constraint; and
the `SimpleQuery`/`Query` conversions are mutually lossless identities. -/
theorem simple_query_shapes :
    (∀ (s : SimpleQuery) (key : String) (v : Json),
      (s.equals key v).q = s.q.push (.string key) (.value v))
    ∧ (∀ (s : SimpleQuery) (key : String) (v : Json),
      (s.not_equals key v).q = s.q.push (.string key) (.mapping [(.NotEquals, .value v)]))
    ∧ (∀ (s : SimpleQuery) (key : String) (n : Int),
      (s.less_than key n).q = s.q.push (.string key) (.mapping [(.LessThan, .value (.num n))]))
    ∧ (∀ (s : SimpleQuery) (key : String) (n : Int),
      (s.less_than_equal key n).q
        = s.q.push (.string key) (.mapping [(.LessThanEqual, .value (.num n))]))
    ∧ (∀ (s : SimpleQuery) (key : String) (n : Int),
      (s.greater_than key n).q = s.q.push (.string key) (.mapping [(.GreaterThan, .value (.num n))]))
    ∧ (∀ (s : SimpleQuery) (key : String) (n : Int),
      (s.greater_than_equal key n).q
        = s.q.push (.string key) (.mapping [(.GreaterThanEqual, .value (.num n))]))
    ∧ (∀ (s : SimpleQuery) (key : String) (vs : List Json),
      (s.in_array key vs).q = s.q.push (.string key) (.mapping [(.In, .value (.arr vs))]))
    ∧ (∀ (s : SimpleQuery) (key : String) (vs : List Json),
      (s.not_in_array key vs).q
        = s.q.push (.string key) (.mapping [(.NotIn, .value (.arr vs))]))
    ∧ (∀ (s : SimpleQuery) (key : String) (expr : Query),
      (s.not key expr).q = s.q.push (.string key) (.mapping [(.Not, .mapping expr)]))
    ∧ (∀ q : Query, Query.fromSimple (SimpleQuery.fromQuery q) = q)
    ∧ (∀ s : SimpleQuery, SimpleQuery.fromQuery (Query.fromSimple s) = s) := by
  refine ⟨?_, ?_, ?_, ?_, ?_, ?_, ?_, ?_, ?_, ?_, ?_⟩ <;> intros <;> rfl

/-- Under cardinality `One`, the update replaces exactly the first matching
document of the store, leaving everything else in place. -/
theorem replaceFirst_append (q : Query) (upd : Doc) (pre : List Doc) (m : Doc)
    (post : List Doc) (hpre : ∀ x ∈ pre, specMatches q x = false)
    (hm : specMatches q m = true) :
    replaceFirst (pre ++ m :: post) q upd = pre ++ upd :: post := by
  induction pre with
  | nil => simp [replaceFirst, hm]
  | cons x rest ih =>
    have hx := hpre x (by simp)
    simp [replaceFirst, hx, ih (fun y hy => hpre y (by simp [hy]))]

/-- C3: `Collection::save` is exactly `Collection::update` with the
single-field identity-equality query, cardinality `One` and upsert forced
`true`; under the spec-modelled backend update semantics, saving a document
whose identity is absent from the store appends its serialized form
(insert), and saving over an existing identity replaces that document's
stored fields without changing the value stored under the identifier
field. -/
theorem save_is_update_by_identity {T : Type} (C : CollectionModel T) (d : T)
    (sd : Doc) (store : List Doc)
    (hs : C.serialize d = .ok sd)
    (hid : docLookup C.idField sd = some (.str (C.idString d))) :
    C.save d = C.update (C.saveQuery d) d .One true
    ∧ ((∀ m ∈ store, specMatches (C.saveQuery d) m = false) →
        storeUpdate store (C.saveQuery d) sd .One true = store ++ [sd])
    ∧ (∀ pre m post, store = pre ++ m :: post →
        specMatches (C.saveQuery d) m = true →
        (∀ x ∈ pre, specMatches (C.saveQuery d) x = false) →
        storeUpdate store (C.saveQuery d) sd .One true = pre ++ sd :: post
        ∧ docLookup C.idField sd = docLookup C.idField m) := by
  refine ⟨rfl, ?_, ?_⟩
  · intro hnone
    have hany : store.any (fun dd => specMatches (C.saveQuery d) dd) = false := by
      simp only [List.any_eq_false]
      intro x hx
      simp [hnone x hx]
    simp [storeUpdate, hany]
  · intro pre m post hstore hm hpre
    subst hstore
    have hany : (pre ++ m :: post).any (fun dd => specMatches (C.saveQuery d) dd) = true := by
      simp only [List.any_eq_true]
      exact ⟨m, by simp, hm⟩
    refine ⟨by simp [storeUpdate, hany, replaceFirst_append _ _ pre m post hpre hm], ?_⟩
    have hm' : docLookup C.idField m = some (.str (C.idString d)) := by
      simpa [CollectionModel.saveQuery, Query.field, Query.new, Query.push,
        Query.build, specMatches, specMatchesEntry] using hm
    rw [hid, hm']

/-- Witness for C3: saving a unit document into an empty store creates its
serialized form. -/
theorem save_is_update_by_identity_witness :
    storeUpdate [] (unitCollection.saveQuery ()) [("id", Json.str "u")] .One true
      = [[("id", Json.str "u")]] :=
  (save_is_update_by_identity unitCollection () [("id", Json.str "u")] []
    rfl rfl).2.1 (by simp)

/-- Pushing under a key makes the map-view of the query return the new
value there and leave every other key unchanged (last write wins). -/
theorem lookup_push (q : Query) (k : QueryKey) (v : QueryValue) (k' : QueryKey) :
    (q.push k v).lookup k' = if k' = k then some v else q.lookup k' := by
  induction q with
  | nil =>
    simp only [Query.push, Query.lookup]
    by_cases h : k = k'
    · subst h; simp
    · simp [h, Ne.symm h]
  | cons hd rest ih =>
    obtain ⟨k0, v0⟩ := hd
    simp only [Query.push]
    by_cases h0 : k0 = k
    · subst h0
      by_cases h : k' = k0
      · subst h; simp [Query.lookup]
      · simp [Query.lookup, h, Ne.symm h]
    · simp only [if_neg h0, Query.lookup, ih]
      by_cases h1 : k0 = k'
      · subst h1
        simp [Ne.symm h0, h0]
      · simp [h1]

/-- Queries with the same map-view keep the same map-view under any further
sequence of builder pushes. -/
theorem applyPushes_lookup_congr (l : List (QueryKey × QueryValue)) :
    ∀ q1 q2 : Query, (∀ k, q1.lookup k = q2.lookup k) →
      ∀ k, (applyPushes q1 l).lookup k = (applyPushes q2 l).lookup k := by
  induction l with
  | nil => intro q1 q2 h k; exact h k
  | cons a l ih =>
    intro q1 q2 h k
    have : applyPushes q1 (a :: l) = applyPushes (q1.push a.1 a.2) l := rfl
    rw [this]
    have : applyPushes q2 (a :: l) = applyPushes (q2.push a.1 a.2) l := rfl
    rw [this]
    apply ih
    intro k'
    rw [lookup_push, lookup_push, h k']

/-- C7: a query is a mapping with unique keys: pushing under an existing
key replaces the previous value (last write for a key wins), and any two
builder call sequences that are permutations of each other over distinct
keys leave the query with the same mapping — insertion order is
irrelevant to the map a query denotes. -/
theorem query_is_key_value_map :
    (∀ (q : Query) (k : QueryKey) (v : QueryValue) (k' : QueryKey),
      (q.push k v).lookup k' = if k' = k then some v else q.lookup k')
    ∧ (∀ (l1 l2 : List (QueryKey × QueryValue)), l1.Perm l2 →
        (l1.map Prod.fst).Nodup →
        ∀ (q : Query) (k : QueryKey),
          (applyPushes q l1).lookup k = (applyPushes q l2).lookup k) := by
  refine ⟨lookup_push, ?_⟩
  intro l1 l2 hperm
  induction hperm with
  | nil => intro _ q k; rfl
  | cons x h ih =>
    intro hnodup q k
    rw [List.map_cons, List.nodup_cons] at hnodup
    exact ih hnodup.2 (q.push x.1 x.2) k
  | swap a b l =>
    intro hnodup q k
    rw [List.map_cons, List.map_cons, List.nodup_cons] at hnodup
    have hba : b.1 ≠ a.1 := by
      intro h
      exact hnodup.1 (by simp [h])
    have step : ∀ k', ((q.push b.1 b.2).push a.1 a.2).lookup k'
        = ((q.push a.1 a.2).push b.1 b.2).lookup k' := by
      intro k'
      rw [lookup_push, lookup_push, lookup_push, lookup_push]
      by_cases h1 : k' = a.1
      · subst h1
        simp [Ne.symm hba]
      · simp [h1]
    exact applyPushes_lookup_congr l _ _ step k
  | trans h12 h23 ih1 ih2 =>
    intro hnodup q k
    refine (ih1 hnodup q k).trans (ih2 ?_ q k)
    exact ((h12.map Prod.fst).nodup hnodup)

/-- Witness for C7: two orders of the same two distinct-key builder calls
give queries with the same map-view. -/
theorem query_is_key_value_map_witness :
    (applyPushes Query.new
      [(QueryKey.string "a", QueryValue.value (Json.num 1)),
        (QueryKey.GreaterThan, QueryValue.value (Json.num 2))]).lookup
      (QueryKey.string "a")
    = (applyPushes Query.new
      [(QueryKey.GreaterThan, QueryValue.value (Json.num 2)),
        (QueryKey.string "a", QueryValue.value (Json.num 1))]).lookup
      (QueryKey.string "a") :=
  query_is_key_value_map.2 _ _ (List.Perm.swap _ _ _) (by decide) Query.new _

/-- Removing consecutive duplicates never changes membership. -/
theorem mem_dedupAdjacent (x : String) : ∀ l : List String, x ∈ dedupAdjacent l ↔ x ∈ l := by
  intro l
  induction l using dedupAdjacent.induct with
  | case1 => simp [dedupAdjacent]
  | case2 a => simp [dedupAdjacent]
  | case3 b rest ih => simp only [dedupAdjacent, if_pos rfl]; simp [ih]
  | case4 a b rest hab ih => simp [dedupAdjacent, if_neg hab, ih]

/-- Removing consecutive duplicates of a `≤`-sorted list leaves a strictly
sorted list (hence sorted and duplicate-free). -/
theorem dedupAdjacent_pairwise_lt :
    ∀ l : List String, l.Sorted (· ≤ ·) → (dedupAdjacent l).Pairwise (· < ·) := by
  intro l
  induction l using dedupAdjacent.induct with
  | case1 => intro _; simp [dedupAdjacent]
  | case2 a => intro _; simp [dedupAdjacent]
  | case3 b rest ih =>
    intro hs
    simp only [dedupAdjacent, if_pos rfl]
    exact ih (List.Sorted.of_cons hs)
  | case4 a b rest hab ih =>
    intro hs
    simp only [dedupAdjacent, if_neg hab]
    refine List.pairwise_cons.2 ⟨?_, ih (List.Sorted.of_cons hs)⟩
    intro x hx
    have hxmem : x ∈ b :: rest := (mem_dedupAdjacent x (b :: rest)).1 hx
    have halb : a < b :=
      lt_of_le_of_ne (List.rel_of_sorted_cons hs b (by simp)) hab
    rcases List.mem_cons.1 hxmem with h | h
    · exact h ▸ halb
    · exact lt_of_lt_of_le halb (List.rel_of_sorted_cons (List.Sorted.of_cons hs) x h)

/-- Fields list produced by `Index::new_compound`: sorted, duplicate-free,
with exactly the members of the input. -/
theorem new_compound_fields_spec (l : List String) :
    (Index.new_compound l).fields.Sorted (· ≤ ·)
    ∧ (Index.new_compound l).fields.Nodup
    ∧ ∀ x, x ∈ (Index.new_compound l).fields ↔ x ∈ l := by
  have hsort : (List.insertionSort (· ≤ ·) l).Sorted (· ≤ ·) :=
    List.sorted_insertionSort _ _
  have hplt := dedupAdjacent_pairwise_lt _ hsort
  refine ⟨hplt.imp le_of_lt, hplt.imp ne_of_lt, ?_⟩
  intro x
  rw [Index.new_compound]
  simp only [mem_dedupAdjacent]
  exact (List.perm_insertionSort (· ≤ ·) l).mem_iff

/-- C6: `Index::new_compound` normalizes its input: the constructed fields
list is sorted and duplicate-free, `["b","a","a"]` yields `["a","b"]`, and
any two inputs with the same underlying field set construct identical
fields lists. -/
theorem new_compound_normalizes :
    ((Index.new_compound ["b", "a", "a"]).fields = ["a", "b"])
    ∧ (∀ l : List String,
        (Index.new_compound l).fields.Sorted (· ≤ ·)
        ∧ (Index.new_compound l).fields.Nodup)
    ∧ (∀ l1 l2 : List String, (∀ x, x ∈ l1 ↔ x ∈ l2) →
        (Index.new_compound l1).fields = (Index.new_compound l2).fields) := by
  refine ⟨by simp [Index.new_compound, List.insertionSort, List.orderedInsert, dedupAdjacent],
    fun l => ⟨(new_compound_fields_spec l).1, (new_compound_fields_spec l).2.1⟩, ?_⟩
  intro l1 l2 hmem
  obtain ⟨hs1, hn1, hm1⟩ := new_compound_fields_spec l1
  obtain ⟨hs2, hn2, hm2⟩ := new_compound_fields_spec l2
  refine List.eq_of_perm_of_sorted ?_ hs1 hs2
  refine (List.perm_ext_iff_of_nodup hn1 hn2).2 ?_
  intro x
  rw [hm1, hm2]
  exact hmem x

/-- Witness for C6: two orderings of the same field set construct the same
fields list. -/
theorem new_compound_normalizes_witness :
    (Index.new_compound ["b", "a"]).fields = (Index.new_compound ["a", "b", "a"]).fields :=
  new_compound_normalizes.2.2 ["b", "a"] ["a", "b", "a"]
    (fun x => by simp; tauto)

/-- C10: every `Index` constructed by `new` or `new_compound` has a sorted,
duplicate-free fields list, and the builder operations keep it that way:
`field` adds only an absent field name and re-sorts (leaving the list
unchanged when the field is present, and its members are exactly the old
members plus the new field), while `named`, `unnamed`, `unique` and
`build` leave the fields list unchanged. -/
theorem index_fields_invariant :
    (∀ f : String, (Index.new f).fields.Sorted (· ≤ ·) ∧ (Index.new f).fields.Nodup)
    ∧ (∀ l : List String,
        (Index.new_compound l).fields.Sorted (· ≤ ·) ∧ (Index.new_compound l).fields.Nodup)
    ∧ (∀ (i : Index) (f : String), i.fields.Sorted (· ≤ ·) → i.fields.Nodup →
        ((i.field f).fields.Sorted (· ≤ ·) ∧ (i.field f).fields.Nodup
          ∧ (∀ x, x ∈ (i.field f).fields ↔ x ∈ i.fields ∨ x = f)
          ∧ (f ∈ i.fields → (i.field f).fields = i.fields)))
    ∧ (∀ (i : Index) (n : String), (i.named n).fields = i.fields)
    ∧ (∀ i : Index, i.unnamed.fields = i.fields)
    ∧ (∀ (i : Index) (u : Bool), (i.setUnique u).fields = i.fields)
    ∧ (∀ i : Index, i.build.fields = i.fields) := by
  refine ⟨fun f => ⟨by simp [Index.new], by simp [Index.new]⟩,
    fun l => ⟨(new_compound_fields_spec l).1, (new_compound_fields_spec l).2.1⟩,
    ?_, fun _ _ => rfl, fun _ => rfl, fun _ _ => rfl, fun _ => rfl⟩
  intro i f hsorted hnodup
  by_cases hf : f ∈ i.fields
  · refine ⟨by simpa [Index.field, hf] using hsorted,
      by simpa [Index.field, hf] using hnodup, ?_, fun _ => by simp [Index.field, hf]⟩
    intro x
    simp only [Index.field, if_pos hf]
    constructor
    · exact fun h => Or.inl h
    · rintro (h | h)
      · exact h
      · exact h ▸ hf
  · have happ : (i.fields ++ [f]).Nodup := by
      rw [List.nodup_append]
      exact ⟨hnodup, List.nodup_singleton f, by simpa using hf⟩
    have hperm := List.perm_insertionSort (· ≤ ·) (i.fields ++ [f])
    refine ⟨by simp only [Index.field, if_neg hf]; exact List.sorted_insertionSort _ _,
      by simpa [Index.field, hf] using hperm.symm.nodup happ, ?_, fun hmem => absurd hmem hf⟩
    intro x
    simp [Index.field, hf, hperm.mem_iff]

/-- Witness for C10: adding a fresh field to a single-field index keeps the
fields list sorted and duplicate-free. -/
theorem index_fields_invariant_witness :
    ((Index.new "b").field "a").fields.Sorted (· ≤ ·)
    ∧ ((Index.new "b").field "a").fields.Nodup :=
  ⟨(index_fields_invariant.2.2.1 (Index.new "b") "a" (by simp [Index.new]) (by simp [Index.new])).1,
    (index_fields_invariant.2.2.1 (Index.new "b") "a" (by simp [Index.new]) (by simp [Index.new])).2.1⟩

/-- Pushing a key that no entry of the query carries appends the entry. -/
theorem push_fresh (acc : Query) (k : QueryKey) (v : QueryValue)
    (h : ∀ e ∈ acc, e.1 ≠ k) : Query.push acc k v = acc ++ [(k, v)] := by
  induction acc with
  | nil => rfl
  | cons e rest ih =>
    obtain ⟨k0, v0⟩ := e
    have hk0 : k0 ≠ k := h (k0, v0) (by simp)
    simp only [Query.push, if_neg hk0, List.cons_append, List.cons.injEq, true_and]
    exact ih fun e he => h e (by simp [he])

/-- Inserting a key absent from a wire document appends the entry. -/
theorem docInsert_fresh (d : Doc) (k : String) (v : Json)
    (h : keyMem k d = false) : docInsert d k v = d ++ [(k, v)] := by
  induction d with
  | nil => rfl
  | cons e rest ih =>
    obtain ⟨k0, v0⟩ := e
    rw [keyMem, Bool.or_eq_false_iff] at h
    have hk0 : ¬k0 = k := by simpa using h.1
    simp only [docInsert, if_neg hk0, List.cons_append, List.cons.injEq, true_and]
    exact ih h.2

/-- Key membership distributes over document concatenation. -/
theorem keyMem_append (k : String) (d1 d2 : Doc) :
    keyMem k (d1 ++ d2) = (keyMem k d1 || keyMem k d2) := by
  induction d1 with
  | nil => simp [keyMem]
  | cons e rest ih => obtain ⟨k0, v0⟩ := e; simp [keyMem, ih, Bool.or_assoc]

/-- Key membership is membership in the key projection. -/
theorem keyMem_iff_mem_keys (k : String) (d : Doc) :
    keyMem k d = true ↔ k ∈ d.map Prod.fst := by
  induction d with
  | nil => simp [keyMem]
  | cons e rest ih =>
    obtain ⟨k0, v0⟩ := e
    rw [keyMem, Bool.or_eq_true, decide_eq_true_eq, ih, List.map_cons, List.mem_cons]
    constructor
    · rintro (h | h)
      · exact Or.inl h.symm
      · exact Or.inr h
    · rintro (h | h)
      · exact Or.inl h.symm
      · exact Or.inr h

/-- A well-formed wire document has pairwise-distinct keys. -/
theorem wfDoc_keys_nodup (d : Doc) (h : Json.wfDoc d = true) :
    (d.map Prod.fst).Nodup := by
  induction d with
  | nil => simp
  | cons e rest ih =>
    obtain ⟨k0, v0⟩ := e
    rw [Json.wfDoc] at h
    simp only [Bool.and_eq_true, Bool.not_eq_true'] at h
    refine List.nodup_cons.2 ⟨?_, ih h.2⟩
    intro hmem
    rw [← keyMem_iff_mem_keys] at hmem
    rw [h.1.1] at hmem
    cases hmem

/-- Serializing a query whose entries carry pairwise-distinct wire tokens,
all absent from the accumulator document, appends their wire entries in
order. -/
theorem tryIntoEntries_eq_append :
    ∀ (q : Query) (acc : Doc), (q.map fun e => e.1.toStr).Nodup →
      (∀ e ∈ q, keyMem e.1.toStr acc = false) →
      Query.tryIntoEntries acc q = acc ++ q.map entryWire := by
  intro q
  induction q with
  | nil => intro acc _ _; simp [Query.tryIntoEntries]
  | cons e rest ih =>
    intro acc hnodup hfresh
    obtain ⟨k, v⟩ := e
    rw [List.map_cons, List.nodup_cons] at hnodup
    rw [Query.tryIntoEntries,
      docInsert_fresh acc k.toStr (QueryValue.wire v) (hfresh (k, v) (by simp))]
    rw [ih (acc ++ [(k.toStr, QueryValue.wire v)]) hnodup.2 ?_]
    · simp [entryWire]
    · intro e he
      rw [keyMem_append]
      have h1 : keyMem e.1.toStr acc = false := hfresh e (by simp [he])
      have h2 : keyMem e.1.toStr [(k.toStr, QueryValue.wire v)] = false := by
        simp only [keyMem, Bool.or_false]
        simp only [decide_eq_false_iff_not]
        intro hk
        exact hnodup.1 (hk ▸ List.mem_map_of_mem (fun e => e.1.toStr) he)
      rw [h1, h2]
      rfl

/-- A successful `bson_number` pins the wire value to that number. -/
theorem bson_number_some (j : Json) (n : Int) (h : bson_number j = some n) :
    j = .num n := by
  cases j <;> simp_all [bson_number]

/-- A successful `bson_value_array` pins the wire value to that array. -/
theorem bson_value_array_some (j : Json) (vs : List Json)
    (h : bson_value_array j = some vs) : j = .arr vs := by
  cases j <;> simp_all [bson_value_array]

/-- The wire form of a casematch is the list of its sub-queries' wire
documents. -/
theorem wireCases_eq_map (qs : List Query) :
    QueryValue.wireCases qs = qs.map fun s => Json.doc (Query.tryIntoEntries [] s) := by
  induction qs with
  | nil => rfl
  | cons q rest ih => rw [QueryValue.wireCases, ih, List.map_cons]

/-- A query whose entry-wise wire form is a well-formed document serializes
to exactly that document. -/
theorem tryIntoEntries_of_map_eq (sub : Query) (d : Doc)
    (hmap : sub.map entryWire = d) (hwf : Json.wfDoc d = true) :
    Query.tryIntoEntries [] sub = d := by
  have hkeys : (sub.map fun e => e.1.toStr) = d.map Prod.fst := by
    rw [← hmap, List.map_map]
    rfl
  have hnodup : (sub.map fun e => e.1.toStr).Nodup := by
    rw [hkeys]
    exact wfDoc_keys_nodup d hwf
  rw [tryIntoEntries_eq_append sub [] hnodup (fun e _ => rfl), List.nil_append, hmap]

/-- Key membership after an insertion: the old keys plus the inserted one. -/
theorem keyMem_docInsert (x : String) (d : Doc) (k : String) (v : Json) :
    keyMem x (docInsert d k v) = (keyMem x d || decide (k = x)) := by
  induction d with
  | nil => simp [docInsert, keyMem]
  | cons e rest ih =>
    obtain ⟨k0, v0⟩ := e
    by_cases h : k0 = k
    · subst h
      simp only [docInsert, if_pos rfl, keyMem]
      cases hdec : decide (k0 = x) <;> simp [hdec]
    · simp [docInsert, if_neg h, keyMem, ih, Bool.or_assoc]

/-- Document insertion preserves well-formedness when the inserted value is
well-formed. -/
theorem wfDoc_docInsert (d : Doc) (k : String) (v : Json)
    (hd : Json.wfDoc d = true) (hv : Json.wf v = true) :
    Json.wfDoc (docInsert d k v) = true := by
  induction d with
  | nil => simp [docInsert, Json.wfDoc, keyMem, hv]
  | cons e rest ih =>
    obtain ⟨k0, v0⟩ := e
    rw [Json.wfDoc, Bool.and_eq_true, Bool.and_eq_true, Bool.not_eq_true'] at hd
    by_cases h : k0 = k
    · subst h
      rw [docInsert, if_pos rfl, Json.wfDoc]
      simp [hd.1.1, hd.2, hv]
    · rw [docInsert, if_neg h, Json.wfDoc]
      simp only [Bool.and_eq_true, Bool.not_eq_true']
      refine ⟨⟨?_, hd.1.2⟩, ih hd.2⟩
      rw [keyMem_docInsert, hd.1.1, Bool.false_or, decide_eq_false_iff_not]
      exact fun hk => h hk.symm

/-- Serializing a well-formed query yields a well-formed wire document. -/
theorem wf_tryInto (q : Query) (h : Query.wfQ q = true) :
    Json.wfDoc (Query.tryInto q) = true := by
  have main : ∀ (acc : Doc) (qq : Query), Json.wfDoc acc = true → Query.wfQ qq = true →
      Json.wfDoc (Query.tryIntoEntries acc qq) = true := by
    apply Query.tryIntoEntries.induct
      (fun acc qq => Json.wfDoc acc = true → Query.wfQ qq = true →
        Json.wfDoc (Query.tryIntoEntries acc qq) = true)
      (fun v => QueryValue.wfV v = true → Json.wf (QueryValue.wire v) = true)
      (fun qs => QueryValue.wfQs qs = true → Json.wfList (QueryValue.wireCases qs) = true)
    · intro v hv
      exact hv
    · intro qs ih hv
      rw [QueryValue.wire, Json.wf]
      exact ih hv
    · intro qq ih hv
      rw [QueryValue.wire, Json.wf]
      exact ih rfl hv
    · intro _
      rfl
    · intro qq rest ih1 ih2 hv
      rw [QueryValue.wfQs, Bool.and_eq_true] at hv
      rw [QueryValue.wireCases, Json.wfList, Bool.and_eq_true]
      exact ⟨by rw [Json.wf]; exact ih1 rfl hv.1, ih2 hv.2⟩
    · intro acc hacc _
      exact hacc
    · intro acc k v rest ihv ih hacc hq
      rw [Query.wfQ, Bool.and_eq_true] at hq
      rw [Query.tryIntoEntries]
      exact ih (wfDoc_docInsert acc k.toStr (QueryValue.wire v) hacc (ihv hq.1)) hq.2
  exact main [] q rfl h

/-- Parse step for the `$gt` token. -/
theorem step_gt (acc : Query) (v : Json) (rest : Doc) :
    Query.tryFromEntries acc (("$gt", v) :: rest)
    = match bson_number v with
      | some n => Query.tryFromEntries (acc.greater_than n) rest
      | none => none := by
  cases v <;> rfl

/-- Parse step for the `$lt` token. -/
theorem step_lt (acc : Query) (v : Json) (rest : Doc) :
    Query.tryFromEntries acc (("$lt", v) :: rest)
    = match bson_number v with
      | some n => Query.tryFromEntries (acc.less_than n) rest
      | none => none := by
  cases v <;> rfl

/-- Parse step for the `$gte` token. -/
theorem step_gte (acc : Query) (v : Json) (rest : Doc) :
    Query.tryFromEntries acc (("$gte", v) :: rest)
    = match bson_number v with
      | some n => Query.tryFromEntries (acc.greater_than_equal n) rest
      | none => none := by
  cases v <;> rfl

/-- Parse step for the `$lte` token. -/
theorem step_lte (acc : Query) (v : Json) (rest : Doc) :
    Query.tryFromEntries acc (("$lte", v) :: rest)
    = match bson_number v with
      | some n => Query.tryFromEntries (acc.less_than_equal n) rest
      | none => none := by
  cases v <;> rfl

/-- Parse step for the `$in` token. -/
theorem step_in (acc : Query) (v : Json) (rest : Doc) :
    Query.tryFromEntries acc (("$in", v) :: rest)
    = match bson_value_array v with
      | some vs => Query.tryFromEntries (acc.in_array vs) rest
      | none => none := by
  cases v <;> rfl

/-- Parse step for the `$nin` token. -/
theorem step_nin (acc : Query) (v : Json) (rest : Doc) :
    Query.tryFromEntries acc (("$nin", v) :: rest)
    = match bson_value_array v with
      | some vs => Query.tryFromEntries (acc.not_in_array vs) rest
      | none => none := by
  cases v <;> rfl

/-- Parse step for the `$not` token. -/
theorem step_not (acc : Query) (v : Json) (rest : Doc) :
    Query.tryFromEntries acc (("$not", v) :: rest)
    = match bson_query v with
      | some sub => Query.tryFromEntries (acc.not sub) rest
      | none => none := by
  cases v <;> rfl

/-- Parse step for the `$and` token. -/
theorem step_and (acc : Query) (v : Json) (rest : Doc) :
    Query.tryFromEntries acc (("$and", v) :: rest)
    = match bson_query_array v with
      | some qs => Query.tryFromEntries (acc.and qs) rest
      | none => none := by
  cases v <;> rfl

/-- Parse step for the `$or` token. -/
theorem step_or (acc : Query) (v : Json) (rest : Doc) :
    Query.tryFromEntries acc (("$or", v) :: rest)
    = match bson_query_array v with
      | some qs => Query.tryFromEntries (acc.or qs) rest
      | none => none := by
  cases v <;> rfl

/-- Parse step for the `$eq` token. -/
theorem step_eq (acc : Query) (v : Json) (rest : Doc) :
    Query.tryFromEntries acc (("$eq", v) :: rest)
    = Query.tryFromEntries (acc.equals (bson_value v)) rest := by
  cases v <;> rfl

/-- Parse step for the `$ne` token. -/
theorem step_ne (acc : Query) (v : Json) (rest : Doc) :
    Query.tryFromEntries acc (("$ne", v) :: rest)
    = Query.tryFromEntries (acc.not_equals (bson_value v)) rest := by
  cases v <;> rfl

/-- Parse step for an unrecognized operator key whose value is a document:
it is accepted generically as a named operator with a nested mapping. -/
theorem step_custom_doc (acc : Query) (k' : String) (d : Doc) (rest : Doc)
    (hd : startsWithDollar k' = true)
    (h1 : k' ≠ "$gt") (h2 : k' ≠ "$lt") (h3 : k' ≠ "$gte") (h4 : k' ≠ "$lte")
    (h5 : k' ≠ "$eq") (h6 : k' ≠ "$ne") (h7 : k' ≠ "$in") (h8 : k' ≠ "$nin")
    (h9 : k' ≠ "$not") (h10 : k' ≠ "$and") (h11 : k' ≠ "$or") :
    Query.tryFromEntries acc ((k', Json.doc d) :: rest)
    = match Query.tryFromEntries Query.new d with
      | some sq => Query.tryFromEntries (acc.operation k' (.mapping sq)) rest
      | none => none := by
  rw [Query.tryFromEntries.eq_2, if_pos hd, if_neg h1, if_neg h2, if_neg h3,
    if_neg h4, if_neg h5, if_neg h6, if_neg h7, if_neg h8, if_neg h9,
    if_neg h10, if_neg h11]

/-- Parse step for an unrecognized operator key whose value is not a
document: an array of documents becomes a casematch, anything else a
scalar value. -/
theorem step_custom_nondoc (acc : Query) (k' : String) (v : Json) (rest : Doc)
    (hd : startsWithDollar k' = true)
    (h1 : k' ≠ "$gt") (h2 : k' ≠ "$lt") (h3 : k' ≠ "$gte") (h4 : k' ≠ "$lte")
    (h5 : k' ≠ "$eq") (h6 : k' ≠ "$ne") (h7 : k' ≠ "$in") (h8 : k' ≠ "$nin")
    (h9 : k' ≠ "$not") (h10 : k' ≠ "$and") (h11 : k' ≠ "$or")
    (hnd : ∀ dd : Doc, v = Json.doc dd → False) :
    Query.tryFromEntries acc ((k', v) :: rest)
    = match bson_query_array v with
      | some qs => Query.tryFromEntries (acc.operation k' (.casematch qs)) rest
      | none => Query.tryFromEntries (acc.operation k' (.value (bson_value v))) rest := by
  rw [Query.tryFromEntries.eq_3 acc k' v rest hnd, if_pos hd, if_neg h1,
    if_neg h2, if_neg h3, if_neg h4, if_neg h5, if_neg h6, if_neg h7,
    if_neg h8, if_neg h9, if_neg h10, if_neg h11]

/-- Parse step for a field key (no operator sigil) whose value is a
document: a field subquery. -/
theorem step_field_doc (acc : Query) (k' : String) (d : Doc) (rest : Doc)
    (hd : startsWithDollar k' = false) :
    Query.tryFromEntries acc ((k', Json.doc d) :: rest)
    = match Query.tryFromEntries Query.new d with
      | some sq => Query.tryFromEntries (acc.subquery k' sq) rest
      | none => none := by
  rw [Query.tryFromEntries.eq_2, if_neg (by simp [hd])]

/-- Parse step for a field key whose value is not a document: a direct
equality field constraint. -/
theorem step_field_nondoc (acc : Query) (k' : String) (v : Json) (rest : Doc)
    (hd : startsWithDollar k' = false)
    (hnd : ∀ dd : Doc, v = Json.doc dd → False) :
    Query.tryFromEntries acc ((k', v) :: rest)
    = Query.tryFromEntries (acc.field k' (bson_value v)) rest := by
  rw [Query.tryFromEntries.eq_3 acc k' v rest hnd, if_neg (by simp [hd])]

/-- Elementwise characterization of `Json.wfList`. -/
theorem wfList_all (xs : List Json) :
    Json.wfList xs = true ↔ ∀ x ∈ xs, Json.wf x = true := by
  induction xs with
  | nil => simp [Json.wfList]
  | cons x rest ih => simp [Json.wfList, Bool.and_eq_true, ih]

/-- One step of the parse/re-serialize correspondence: if the constraint
parsed from the head wire entry re-serializes to that entry, and the rest
of the document satisfies the correspondence after pushing it, then the
whole document satisfies it. -/
theorem parse_step_aux (acc : Query) (key : String) (value : Json)
    (rest : Doc) (pk : QueryKey) (pv : QueryValue) (q : Query)
    (htok : pk.toStr = key)
    (hwv : QueryValue.wire pv = value)
    (hfresh : ∀ e ∈ acc, keyMem e.1.toStr ((key, value) :: rest) = false)
    (ihrest : ∀ q0, Json.wfDoc rest = true →
        (∀ e ∈ Query.push acc pk pv, keyMem e.1.toStr rest = false) →
        Query.tryFromEntries (Query.push acc pk pv) rest = some q0 →
        ∃ delta, q0 = Query.push acc pk pv ++ delta ∧ delta.map entryWire = rest)
    (hwfd : Json.wfDoc ((key, value) :: rest) = true)
    (hparse : Query.tryFromEntries (Query.push acc pk pv) rest = some q) :
    ∃ delta, q = acc ++ delta ∧ delta.map entryWire = (key, value) :: rest := by
  rw [Json.wfDoc, Bool.and_eq_true, Bool.and_eq_true, Bool.not_eq_true'] at hwfd
  have hpush : Query.push acc pk pv = acc ++ [(pk, pv)] := by
    apply push_fresh
    intro e he hke
    have hmem := hfresh e he
    rw [keyMem, Bool.or_eq_false_iff, decide_eq_false_iff_not] at hmem
    exact hmem.1 (by rw [hke, htok])
  have hfresh' : ∀ e ∈ Query.push acc pk pv, keyMem e.1.toStr rest = false := by
    rw [hpush]
    intro e he
    rcases List.mem_append.1 he with h | h
    · have hmem := hfresh e h
      rw [keyMem, Bool.or_eq_false_iff] at hmem
      exact hmem.2
    · rw [List.mem_singleton.1 h]
      simpa [htok] using hwfd.1.1
  obtain ⟨delta, hq, hmap⟩ := ihrest q hwfd.2 hfresh' hparse
  refine ⟨(pk, pv) :: delta, ?_, ?_⟩
  · rw [hq, hpush, List.append_assoc]
    rfl
  · rw [List.map_cons, hmap, entryWire, htok, hwv]

/-- Core correspondence: parsing a well-formed wire document (relative to an
accumulator whose keys are disjoint from the document's) appends exactly
the constraints whose entry-wise wire form is the document itself. -/
theorem parse_entries_correspond :
    ∀ (acc : Query) (d : Doc), ∀ q, Json.wfDoc d = true →
      (∀ e ∈ acc, keyMem e.1.toStr d = false) →
      Query.tryFromEntries acc d = some q →
      ∃ delta, q = acc ++ delta ∧ delta.map entryWire = d := by
  apply Query.tryFromEntries.induct
    (fun j => ∀ sub, Json.wf j = true → bson_query j = some sub →
      j = Json.doc (sub.map entryWire))
    (fun acc d => ∀ q, Json.wfDoc d = true →
      (∀ e ∈ acc, keyMem e.1.toStr d = false) →
      Query.tryFromEntries acc d = some q →
      ∃ delta, q = acc ++ delta ∧ delta.map entryWire = d)
    (fun j => ∀ qs, Json.wf j = true → bson_query_array j = some qs →
      j = Json.arr (qs.map fun s => Json.doc (s.map entryWire)))
    (fun xs => ∀ qs, Json.wfList xs = true → bson_query_list xs = some qs →
      qs.map (fun s => Json.doc (s.map entryWire)) = xs)
  · intro d ih sub hwf hq
    obtain ⟨delta, hsubeq, hmap⟩ :=
      ih sub hwf (fun e he => absurd he (List.not_mem_nil e)) hq
    rw [hsubeq, show Query.new ++ delta = delta from by simp [Query.new], hmap]
  · intro t hnot sub hwf hq
    cases t <;> first | exact Option.noConfusion hq | exact (hnot _ rfl).elim
  · intro xs ih qs hwf hq
    rw [ih qs hwf hq]
  · intro t hnot qs hwf hq
    cases t <;> first | exact Option.noConfusion hq | exact (hnot _ rfl).elim
  · intro qs hwf hq
    obtain rfl := Option.some.inj hq
    rfl
  · intro x xs q qs hqs hq ih1 ih4 qs0 hwfl hparse
    simp only [bson_query_list, hq, hqs] at hparse
    obtain rfl := Option.some.inj hparse
    rw [Json.wfList, Bool.and_eq_true] at hwfl
    rw [List.map_cons, ih4 qs hwfl.2 hqs, ← ih1 q hwfl.1 hq]
  · intro x xs hfail ih1 ih4 qs0 hwfl hparse
    cases hbq : bson_query x with
    | some q =>
      cases hbql : bson_query_list xs with
      | some qs => exact (hfail q qs hbq hbql).elim
      | none =>
        simp only [bson_query_list, hbq, hbql] at hparse
        exact Option.noConfusion hparse
    | none =>
      simp only [bson_query_list, hbq] at hparse
      exact Option.noConfusion hparse
  · intro acc q hwf hfresh hparse
    have hq : acc = q := Option.some.inj hparse
    exact ⟨[], by rw [← hq]; simp, rfl⟩
  · intro acc v rest n hbn hsd ih q hwf hfresh hparse
    obtain rfl : v = .num n := bson_number_some v n hbn
    exact parse_step_aux acc "$gt" (.num n) rest .GreaterThan (.value (.num n)) q
      rfl rfl hfresh ih hwf hparse
  · intro acc v rest hbn hsd q hwf hfresh hparse
    rw [step_gt, hbn] at hparse
    exact Option.noConfusion hparse
  · intro acc v rest n hbn hsd h1 ih q hwf hfresh hparse
    obtain rfl : v = .num n := bson_number_some v n hbn
    exact parse_step_aux acc "$lt" (.num n) rest .LessThan (.value (.num n)) q
      rfl rfl hfresh ih hwf hparse
  · intro acc v rest hbn hsd h1 q hwf hfresh hparse
    rw [step_lt, hbn] at hparse
    exact Option.noConfusion hparse
  · intro acc v rest n hbn hsd h1 h2 ih q hwf hfresh hparse
    obtain rfl : v = .num n := bson_number_some v n hbn
    exact parse_step_aux acc "$gte" (.num n) rest .GreaterThanEqual (.value (.num n)) q
      rfl rfl hfresh ih hwf hparse
  · intro acc v rest hbn hsd h1 h2 q hwf hfresh hparse
    rw [step_gte, hbn] at hparse
    exact Option.noConfusion hparse
  · intro acc v rest n hbn hsd h1 h2 h3 ih q hwf hfresh hparse
    obtain rfl : v = .num n := bson_number_some v n hbn
    exact parse_step_aux acc "$lte" (.num n) rest .LessThanEqual (.value (.num n)) q
      rfl rfl hfresh ih hwf hparse
  · intro acc v rest hbn hsd h1 h2 h3 q hwf hfresh hparse
    rw [step_lte, hbn] at hparse
    exact Option.noConfusion hparse
  · intro acc v rest hsd h1 h2 h3 h4 ih q hwf hfresh hparse
    rw [step_eq] at hparse
    exact parse_step_aux acc "$eq" v rest .Equals (.value v) q rfl rfl
      hfresh ih hwf hparse
  · intro acc v rest hsd h1 h2 h3 h4 h5 ih q hwf hfresh hparse
    rw [step_ne] at hparse
    exact parse_step_aux acc "$ne" v rest .NotEquals (.value v) q rfl rfl
      hfresh ih hwf hparse
  · intro acc v rest vs hva hsd h1 h2 h3 h4 h5 h6 ih q hwf hfresh hparse
    obtain rfl : v = .arr vs := bson_value_array_some v vs hva
    exact parse_step_aux acc "$in" (.arr vs) rest .In (.value (.arr vs)) q
      rfl rfl hfresh ih hwf hparse
  · intro acc v rest hva hsd h1 h2 h3 h4 h5 h6 q hwf hfresh hparse
    rw [step_in, hva] at hparse
    exact Option.noConfusion hparse
  · intro acc v rest vs hva hsd h1 h2 h3 h4 h5 h6 h7 ih q hwf hfresh hparse
    obtain rfl : v = .arr vs := bson_value_array_some v vs hva
    exact parse_step_aux acc "$nin" (.arr vs) rest .NotIn (.value (.arr vs)) q
      rfl rfl hfresh ih hwf hparse
  · intro acc v rest hva hsd h1 h2 h3 h4 h5 h6 h7 q hwf hfresh hparse
    rw [step_nin, hva] at hparse
    exact Option.noConfusion hparse
  · intro acc v rest sub hbq hsd h1 h2 h3 h4 h5 h6 h7 h8 ihv ih q hwf hfresh hparse
    rw [step_not, hbq] at hparse
    have hwfv : Json.wf v = true := by
      rw [Json.wfDoc, Bool.and_eq_true, Bool.and_eq_true] at hwf
      exact hwf.1.2
    have hv := ihv sub hwfv hbq
    have hwv : QueryValue.wire (.mapping sub) = v := by
      rw [hv,
        show QueryValue.wire (QueryValue.mapping sub)
          = Json.doc (Query.tryIntoEntries [] sub) from rfl]
      congr 1
      apply tryIntoEntries_of_map_eq sub _ rfl
      rw [hv] at hwfv
      exact hwfv
    exact parse_step_aux acc "$not" v rest .Not (.mapping sub) q rfl hwv
      hfresh ih hwf hparse
  · intro acc v rest hbq hsd h1 h2 h3 h4 h5 h6 h7 h8 ihv q hwf hfresh hparse
    rw [step_not, hbq] at hparse
    exact Option.noConfusion hparse
  · intro acc v rest qs hqa hsd h1 h2 h3 h4 h5 h6 h7 h8 h9 ihv ih q hwf hfresh hparse
    rw [step_and, hqa] at hparse
    have hwfv : Json.wf v = true := by
      rw [Json.wfDoc, Bool.and_eq_true, Bool.and_eq_true] at hwf
      exact hwf.1.2
    have hv := ihv qs hwfv hqa
    have hwfall : ∀ s ∈ qs, Json.wfDoc (s.map entryWire) = true := by
      rw [hv] at hwfv
      have hall := (wfList_all _).1 hwfv
      intro s hs
      exact hall _ (List.mem_map_of_mem _ hs)
    have hwv : QueryValue.wire (.casematch qs) = v := by
      rw [hv,
        show QueryValue.wire (QueryValue.casematch qs)
          = Json.arr (QueryValue.wireCases qs) from rfl,
        wireCases_eq_map]
      congr 1
      apply List.map_congr_left
      intro s hs
      rw [tryIntoEntries_of_map_eq s _ rfl (hwfall s hs)]
    exact parse_step_aux acc "$and" v rest .And (.casematch qs) q rfl hwv
      hfresh ih hwf hparse
  · intro acc v rest hqa hsd h1 h2 h3 h4 h5 h6 h7 h8 h9 ihv q hwf hfresh hparse
    rw [step_and, hqa] at hparse
    exact Option.noConfusion hparse
  · intro acc v rest qs hqa hsd h1 h2 h3 h4 h5 h6 h7 h8 h9 h10 ihv ih q hwf hfresh hparse
    rw [step_or, hqa] at hparse
    have hwfv : Json.wf v = true := by
      rw [Json.wfDoc, Bool.and_eq_true, Bool.and_eq_true] at hwf
      exact hwf.1.2
    have hv := ihv qs hwfv hqa
    have hwfall : ∀ s ∈ qs, Json.wfDoc (s.map entryWire) = true := by
      rw [hv] at hwfv
      have hall := (wfList_all _).1 hwfv
      intro s hs
      exact hall _ (List.mem_map_of_mem _ hs)
    have hwv : QueryValue.wire (.casematch qs) = v := by
      rw [hv,
        show QueryValue.wire (QueryValue.casematch qs)
          = Json.arr (QueryValue.wireCases qs) from rfl,
        wireCases_eq_map]
      congr 1
      apply List.map_congr_left
      intro s hs
      rw [tryIntoEntries_of_map_eq s _ rfl (hwfall s hs)]
    exact parse_step_aux acc "$or" v rest .Or (.casematch qs) q rfl hwv
      hfresh ih hwf hparse
  · intro acc v rest hqa hsd h1 h2 h3 h4 h5 h6 h7 h8 h9 h10 ihv q hwf hfresh hparse
    rw [step_or, hqa] at hparse
    exact Option.noConfusion hparse
  · intro acc k' rest hsd h1 h2 h3 h4 h5 h6 h7 h8 h9 h10 h11 d sub hsub ihd ih
      q hwf hfresh hparse
    rw [step_custom_doc acc k' d rest hsd h1 h2 h3 h4 h5 h6 h7 h8 h9 h10 h11,
      hsub] at hparse
    have hwfd : Json.wfDoc d = true := by
      rw [Json.wfDoc, Bool.and_eq_true, Bool.and_eq_true] at hwf
      exact hwf.1.2
    obtain ⟨delta, hsubeq, hmap⟩ :=
      ihd sub hwfd (fun e he => absurd he (List.not_mem_nil e)) hsub
    have hmap' : sub.map entryWire = d := by
      rw [hsubeq]
      simpa [Query.new] using hmap
    have hwv : QueryValue.wire (.mapping sub) = Json.doc d := by
      rw [show QueryValue.wire (QueryValue.mapping sub)
          = Json.doc (Query.tryIntoEntries [] sub) from rfl]
      congr 1
      exact tryIntoEntries_of_map_eq sub d hmap' hwfd
    exact parse_step_aux acc k' (Json.doc d) rest (.operator k') (.mapping sub) q
      rfl hwv hfresh ih hwf hparse
  · intro acc k' rest hsd h1 h2 h3 h4 h5 h6 h7 h8 h9 h10 h11 d hsub ihd
      q hwf hfresh hparse
    rw [step_custom_doc acc k' d rest hsd h1 h2 h3 h4 h5 h6 h7 h8 h9 h10 h11,
      hsub] at hparse
    exact Option.noConfusion hparse
  · intro acc k' v rest hsd h1 h2 h3 h4 h5 h6 h7 h8 h9 h10 h11 qs hnd hqa ihv ih
      q hwf hfresh hparse
    rw [step_custom_nondoc acc k' v rest hsd h1 h2 h3 h4 h5 h6 h7 h8 h9 h10 h11 hnd,
      hqa] at hparse
    have hwfv : Json.wf v = true := by
      rw [Json.wfDoc, Bool.and_eq_true, Bool.and_eq_true] at hwf
      exact hwf.1.2
    have hv := ihv qs hwfv hqa
    have hwfall : ∀ s ∈ qs, Json.wfDoc (s.map entryWire) = true := by
      rw [hv] at hwfv
      have hall := (wfList_all _).1 hwfv
      intro s hs
      exact hall _ (List.mem_map_of_mem _ hs)
    have hwv : QueryValue.wire (.casematch qs) = v := by
      rw [hv,
        show QueryValue.wire (QueryValue.casematch qs)
          = Json.arr (QueryValue.wireCases qs) from rfl,
        wireCases_eq_map]
      congr 1
      apply List.map_congr_left
      intro s hs
      rw [tryIntoEntries_of_map_eq s _ rfl (hwfall s hs)]
    exact parse_step_aux acc k' v rest (.operator k') (.casematch qs) q rfl hwv
      hfresh ih hwf hparse
  · intro acc k' v rest hsd h1 h2 h3 h4 h5 h6 h7 h8 h9 h10 h11 hnd hqa ihv ih
      q hwf hfresh hparse
    rw [step_custom_nondoc acc k' v rest hsd h1 h2 h3 h4 h5 h6 h7 h8 h9 h10 h11 hnd,
      hqa] at hparse
    exact parse_step_aux acc k' v rest (.operator k') (.value v) q rfl rfl
      hfresh ih hwf hparse
  · intro acc k' rest hnsd d sub hsub ihd ih q hwf hfresh hparse
    have hsd' : startsWithDollar k' = false := by simpa using hnsd
    rw [step_field_doc acc k' d rest hsd', hsub] at hparse
    have hwfd : Json.wfDoc d = true := by
      rw [Json.wfDoc, Bool.and_eq_true, Bool.and_eq_true] at hwf
      exact hwf.1.2
    obtain ⟨delta, hsubeq, hmap⟩ :=
      ihd sub hwfd (fun e he => absurd he (List.not_mem_nil e)) hsub
    have hmap' : sub.map entryWire = d := by
      rw [hsubeq]
      simpa [Query.new] using hmap
    have hwv : QueryValue.wire (.mapping sub) = Json.doc d := by
      rw [show QueryValue.wire (QueryValue.mapping sub)
          = Json.doc (Query.tryIntoEntries [] sub) from rfl]
      congr 1
      exact tryIntoEntries_of_map_eq sub d hmap' hwfd
    exact parse_step_aux acc k' (Json.doc d) rest (.string k') (.mapping sub) q
      rfl hwv hfresh ih hwf hparse
  · intro acc k' rest hnsd d hsub ihd q hwf hfresh hparse
    have hsd' : startsWithDollar k' = false := by simpa using hnsd
    rw [step_field_doc acc k' d rest hsd', hsub] at hparse
    exact Option.noConfusion hparse
  · intro acc k' v rest hnsd hnd ih q hwf hfresh hparse
    have hsd' : startsWithDollar k' = false := by simpa using hnsd
    rw [step_field_nondoc acc k' v rest hsd' hnd] at hparse
    exact parse_step_aux acc k' v rest (.string k') (.value v) q rfl rfl
      hfresh ih hwf hparse

/-- Counterexample for C1: the query built by the operator method
`field "$gt" "a"` serializes to the wire filter with key `$gt` and a
non-numeric value, and parsing that wire filter back fails — no Query at
all (let alone a semantically equivalent one) is yielded by the round
trip. -/
theorem roundtrip_fails_on_gt_string :
    Query.tryFrom (Query.tryInto (Query.new.field "$gt" (Json.str "a"))) = none := rfl

/-- C1 (amended): for every well-formed Query `q` (all JSON literals in it
carry duplicate-free documents, which Rust's map-backed
`serde_json::Value` guarantees), whenever parsing the serialized wire form
of `q` succeeds with a Query `q'`, re-serializing `q'` yields exactly the
original wire filter — hence it selects the identical document set. -/
theorem wire_roundtrip (q q' : Query) (hwf : Query.wfQ q = true)
    (hp : Query.tryFrom (Query.tryInto q) = some q') :
    Query.tryInto q' = Query.tryInto q := by
  have hwfd := wf_tryInto q hwf
  obtain ⟨delta, hq', hmap⟩ := parse_entries_correspond Query.new (Query.tryInto q) q'
    hwfd (fun e he => absurd he (List.not_mem_nil e)) hp
  have hq'' : q' = delta := by rw [hq']; simp [Query.new]
  rw [hq'']
  exact tryIntoEntries_of_map_eq delta (Query.tryInto q) hmap hwfd

/-- Witness for the amended C1: the query `field "a" {b: 1}` parses back as
a field subquery (a different AST), yet its re-serialization is the
original wire filter. -/
theorem wire_roundtrip_witness :
    Query.tryInto (Query.new.subquery "a" (Query.new.field "b" (Json.num 1)))
      = Query.tryInto (Query.new.field "a" (Json.doc [("b", Json.num 1)])) :=
  wire_roundtrip (Query.new.field "a" (Json.doc [("b", Json.num 1)]))
    (Query.new.subquery "a" (Query.new.field "b" (Json.num 1))) rfl rfl
